import Mathlib

/-!
Shallow embedding of the NodeModal read/project/merge/write pipeline
(`src/src/features/modals/NodeModal/index.tsx`).

Modelling conventions:
- JSON values are the inductive `JValue`; JSON numbers are modelled as
  integers (`Int`), so numeric literals with fractions or exponents are
  outside the model.
- JavaScript objects are association lists `List (String × JValue)` in
  insertion order; `JSON.parse` collapses duplicate keys (last value wins,
  first position kept), matching the JS runtime, via `setKey`.
- `JSON.parse` is embedded as the executable `jsonParse`; unsupported
  corner syntax (\u escapes, fraction/exponent numerals, raw control
  characters inside strings) is rejected by the model parser — no claim's
  inputs exercise those forms.
- `JSON.stringify(x, null, 2)` is `stringifyPretty`, `JSON.stringify(x)`
  is `stringifyCompact`.
-/

/-- A JSON value: null, boolean, number (modelled as an integer), string,
array, or object (association list in insertion order). -/
inductive JValue where
  | null : JValue
  | bool : Bool → JValue
  | num : Int → JValue
  | str : String → JValue
  | arr : List JValue → JValue
  | obj : List (String × JValue) → JValue

/-- First-match lookup in an association list (JS property access on an
object whose keys are unique). -/
def lookupFirst : List (String × JValue) → String → Option JValue
  | [], _ => none
  | (k', v') :: rest, k => if k' = k then some v' else lookupFirst rest k

/-- JS property assignment `o[k] = v`: overwrite in place when the key is
present (keeping its position), append otherwise. -/
def setKey : List (String × JValue) → String → JValue → List (String × JValue)
  | [], k, v => [(k, v)]
  | (k', v') :: rest, k, v =>
    if k' = k then (k, v) :: rest else (k', v') :: setKey rest k v

/-- True exactly for the compound kinds (array, object): the values the
projection filters out (`typeof value === "object" && value !== null`). -/
def isCompound : JValue → Bool
  | .arr _ => true
  | .obj _ => true
  | _ => false

/-- A run of `n` spaces, for `JSON.stringify` indentation. -/
def spaces (n : Nat) : String := String.mk (List.replicate n ' ')

/-- Escape the characters of a string body as `JSON.stringify` does
(quotes, backslash and common control characters). -/
def escapeStringChars : List Char → List Char
  | [] => []
  | c :: cs =>
    (if c = '"' then ['\\', '"']
     else if c = '\\' then ['\\', '\\']
     else if c = '\n' then ['\\', 'n']
     else if c = '\t' then ['\\', 't']
     else if c = '\r' then ['\\', 'r']
     else [c]) ++ escapeStringChars cs

/-- A JSON string literal: quoted and escaped. -/
def quoteString (s : String) : String :=
  "\"" ++ String.mk (escapeStringChars s.data) ++ "\""

mutual

/-- `JSON.stringify(v, null, 2)` at indentation depth `d`: scalars render
as their literal text, non-empty arrays/objects break across lines with
2-space-per-level indentation and `": "` after keys. -/
def stringifyPrettyAt : Nat → JValue → String
  | _, .null => "null"
  | _, .bool true => "true"
  | _, .bool false => "false"
  | _, .num n => toString n
  | _, .str s => quoteString s
  | _, .arr [] => "[]"
  | d, .arr (x :: xs) =>
    "[\n" ++ prettyItems (d + 2) (x :: xs) ++ "\n" ++ spaces d ++ "]"
  | _, .obj [] => "\x7b\x7d"
  | d, .obj (f :: fs) =>
    "\x7b\n" ++ prettyFields (d + 2) (f :: fs) ++ "\n" ++ spaces d ++ "\x7d"

/-- Comma/newline-separated pretty array items, each indented `d`. -/
def prettyItems : Nat → List JValue → String
  | _, [] => ""
  | d, [x] => spaces d ++ stringifyPrettyAt d x
  | d, x :: y :: xs =>
    spaces d ++ stringifyPrettyAt d x ++ ",\n" ++ prettyItems d (y :: xs)

/-- Comma/newline-separated pretty object fields, each indented `d`. -/
def prettyFields : Nat → List (String × JValue) → String
  | _, [] => ""
  | d, [(k, v)] => spaces d ++ quoteString k ++ ": " ++ stringifyPrettyAt d v
  | d, (k, v) :: f :: fs =>
    spaces d ++ quoteString k ++ ": " ++ stringifyPrettyAt d v ++ ",\n" ++
      prettyFields d (f :: fs)

end

/-- `JSON.stringify(v, null, 2)` (top level, depth 0). -/
def stringifyPretty (v : JValue) : String := stringifyPrettyAt 0 v

mutual

/-- `JSON.stringify(v)` without an indent argument: compact form. -/
def stringifyCompact : JValue → String
  | .null => "null"
  | .bool true => "true"
  | .bool false => "false"
  | .num n => toString n
  | .str s => quoteString s
  | .arr xs => "[" ++ compactItems xs ++ "]"
  | .obj fs => "\x7b" ++ compactFields fs ++ "\x7d"

/-- Comma-separated compact array items. -/
def compactItems : List JValue → String
  | [] => ""
  | [x] => stringifyCompact x
  | x :: y :: xs => stringifyCompact x ++ "," ++ compactItems (y :: xs)

/-- Comma-separated compact object fields. -/
def compactFields : List (String × JValue) → String
  | [] => ""
  | [(k, v)] => quoteString k ++ ":" ++ stringifyCompact v
  | (k, v) :: f :: fs =>
    quoteString k ++ ":" ++ stringifyCompact v ++ "," ++ compactFields (f :: fs)

end

mutual

/-- JS template-literal stringification of a value, as in the backtick
interpolation of `normalizeNodeData`: strings pass verbatim, scalars render
as their literal text, arrays join with commas, objects render as the
standard object tag. -/
def jsTemplate : JValue → String
  | .null => "null"
  | .bool true => "true"
  | .bool false => "false"
  | .num n => toString n
  | .str s => s
  | .arr xs => templateItems xs
  | .obj _ => "[object Object]"

/-- Array items joined with commas; null elements render empty, as in
JS `Array.prototype.toString`. -/
def templateItems : List JValue → String
  | [] => ""
  | [x] => templateItem x
  | x :: y :: xs => templateItem x ++ "," ++ templateItems (y :: xs)

/-- A single array element under template stringification. -/
def templateItem : JValue → String
  | .null => ""
  | v => jsTemplate v

end

/-- Skip JSON insignificant whitespace. -/
def skipWs : List Char → List Char
  | [] => []
  | c :: cs =>
    if c = ' ' ∨ c = '\n' ∨ c = '\t' ∨ c = '\r' then skipWs cs else c :: cs

/-- The character denoted by a backslash escape inside a JSON string
(`\u` escapes are outside the model). -/
def escapeCode (e : Char) : Option Char :=
  if e = '"' ∨ e = '\\' ∨ e = '/' then some e
  else if e = 'n' then some '\n'
  else if e = 't' then some '\t'
  else if e = 'r' then some '\r'
  else if e = 'b' then some (Char.ofNat 8)
  else if e = 'f' then some (Char.ofNat 12)
  else none

/-- Parse the body of a JSON string after the opening quote, returning the
decoded characters and the rest of the input after the closing quote. -/
def parseStringChars : List Char → Option (List Char × List Char)
  | [] => none
  | '"' :: rest => some ([], rest)
  | '\\' :: rest =>
    match rest with
    | [] => none
    | e :: rest2 =>
      match escapeCode e, parseStringChars rest2 with
      | some c, some (s, r) => some (c :: s, r)
      | _, _ => none
  | c :: rest =>
    match parseStringChars rest with
    | some (s, r) => some (c :: s, r)
    | none => none

/-- Numeric value of a decimal digit character. -/
def digitVal (c : Char) : Nat := c.toNat - '0'.toNat

/-- Split a leading run of decimal digits from the input. -/
def takeDigits : List Char → List Nat × List Char
  | [] => ([], [])
  | c :: cs =>
    if c.isDigit then
      let (ds, r) := takeDigits cs
      (digitVal c :: ds, r)
    else ([], c :: cs)

/-- The natural number denoted by a list of decimal digits. -/
def natFromDigits (ds : List Nat) : Nat := ds.foldl (fun a d => a * 10 + d) 0

/-- Parse an (integer) JSON numeral with optional leading minus. -/
def parseNum : List Char → Option (JValue × List Char)
  | '-' :: cs =>
    match takeDigits cs with
    | ([], _) => none
    | (ds, r) => some (.num (-(natFromDigits ds : Int)), r)
  | cs =>
    match takeDigits cs with
    | ([], _) => none
    | (ds, r) => some (.num ((natFromDigits ds : Int)), r)

/-- Collapse duplicate object keys the way `JSON.parse` does: later value
wins, first position kept. -/
def dedupFields (fs : List (String × JValue)) : List (String × JValue) :=
  fs.foldl (fun acc p => setKey acc p.1 p.2) []

mutual

/-- Fuel-bounded JSON value parser (the model of `JSON.parse` on the
remaining input): returns the value and the unconsumed rest. -/
def parseVal : Nat → List Char → Option (JValue × List Char)
  | 0, _ => none
  | fuel + 1, cs =>
    match skipWs cs with
    | 'n' :: 'u' :: 'l' :: 'l' :: rest => some (.null, rest)
    | 't' :: 'r' :: 'u' :: 'e' :: rest => some (.bool true, rest)
    | 'f' :: 'a' :: 'l' :: 's' :: 'e' :: rest => some (.bool false, rest)
    | '"' :: rest =>
      match parseStringChars rest with
      | some (s, r) => some (.str (String.mk s), r)
      | none => none
    | '[' :: rest =>
      match skipWs rest with
      | ']' :: r => some (.arr [], r)
      | r =>
        match parseItems fuel r with
        | some (xs, r2) => some (.arr xs, r2)
        | none => none
    | '\x7b' :: rest =>
      match skipWs rest with
      | '\x7d' :: r => some (.obj [], r)
      | r =>
        match parseMembers fuel r with
        | some (fs, r2) => some (.obj (dedupFields fs), r2)
        | none => none
    | rest => parseNum rest

/-- Parse one or more comma-separated array items up to the closing `]`. -/
def parseItems : Nat → List Char → Option (List JValue × List Char)
  | 0, _ => none
  | fuel + 1, cs =>
    match parseVal fuel cs with
    | none => none
    | some (v, r) =>
      match skipWs r with
      | ',' :: r2 =>
        match parseItems fuel r2 with
        | some (vs, r3) => some (v :: vs, r3)
        | none => none
      | ']' :: r2 => some ([v], r2)
      | _ => none

/-- Parse one or more comma-separated `"key": value` members up to the
closing brace. -/
def parseMembers : Nat → List Char → Option (List (String × JValue) × List Char)
  | 0, _ => none
  | fuel + 1, cs =>
    match skipWs cs with
    | '"' :: rest =>
      match parseStringChars rest with
      | none => none
      | some (k, r) =>
        match skipWs r with
        | ':' :: r2 =>
          match parseVal fuel r2 with
          | none => none
          | some (v, r3) =>
            match skipWs r3 with
            | ',' :: r4 =>
              match parseMembers fuel r4 with
              | some (fs, r5) => some ((String.mk k, v) :: fs, r5)
              | none => none
            | '\x7d' :: r4 => some ([(String.mk k, v)], r4)
            | _ => none
        | _ => none
    | _ => none

end

/-- The model of `JSON.parse(s)`: parse a complete JSON document, requiring
only whitespace to remain; `none` models a thrown `SyntaxError`. -/
def jsonParse (s : String) : Option JValue :=
  match parseVal (s.length + 1) s.data with
  | some (v, r) => if skipWs r = [] then some v else none
  | none => none

/-- A path segment as carried by `NodeData["path"]`: an object key (string)
or an array index (number). -/
inductive JSeg where
  | key : String → JSeg
  | idx : Nat → JSeg
deriving DecidableEq

/-- One row of `NodeData["text"]`, as accessed by `normalizeNodeData`
(fields `key`, `value`, `type`); an empty `key` models a missing or empty
key, both falsy in the source's truthiness tests. -/
structure NodeRow where
  key : String
  value : JValue
  rowType : String

/-- JS indexing `current[segment]` on a parsed JSON value: key lookup on
objects (a numeric segment is coerced to its decimal string key), in-range
index on arrays; everything else yields `undefined` (`none`). Character
indexing into strings and numeric-string keys on arrays are outside the
model — no caller path exercises them. -/
def getIndex : JValue → JSeg → Option JValue
  | .obj fs, .key k => lookupFirst fs k
  | .obj fs, .idx i => lookupFirst fs (toString i)
  | .arr xs, .idx i => xs.get? i
  | _, _ => none

/-- Resolve a path by repeated `getIndex`, the successful walk of the
source's `for (const segment of path) current = current[segment]` loops. -/
def resolvePath : JValue → List JSeg → Option JValue
  | v, [] => some v
  | v, s :: rest =>
    match getIndex v s with
    | some v' => resolvePath v' rest
    | none => none

/-- Outcome of the source's walk loop with JS error semantics: `found` a
value, ended on `undef`ined (last lookup missed), or `thrown` a TypeError
(indexed into `null` or `undefined` mid-walk). -/
inductive WalkRes where
  | found : JValue → WalkRes
  | undef : WalkRes
  | thrown : WalkRes

/-- The walk loop `for (const segment of path) current = current[segment]`
with JS exception behaviour: indexing `null` throws; a missed lookup gives
`undefined`, which throws one step later if any segment remains. -/
def walk : JValue → List JSeg → WalkRes
  | v, [] => .found v
  | .null, _ :: _ => .thrown
  | v, s :: rest =>
    match getIndex v s with
    | some v' => walk v' rest
    | none =>
      match rest with
      | [] => .undef
      | _ :: _ => .thrown

/-- The object literal built by `normalizeNodeData`'s forEach: rows whose
type is neither "array" nor "object" and whose key is truthy, assigned in
order. -/
def rowsObject (nodeRows : List NodeRow) : List (String × JValue) :=
  nodeRows.foldl
    (fun acc r =>
      if r.rowType ≠ "array" ∧ r.rowType ≠ "object" ∧ r.key ≠ "" then
        setKey acc r.key r.value
      else acc)
    []

/-- Source `normalizeNodeData` (lines 12-23): empty rows give "\x7b\x7d"; a
single keyless row renders as its value's template text; otherwise the
primitive-typed keyed rows are collected into an object and
pretty-printed. -/
def normalizeNodeData : List NodeRow → String
  | [] => "\x7b\x7d"
  | [r] =>
    if r.key = "" then jsTemplate r.value
    else stringifyPretty (.obj (rowsObject [r]))
  | rows => stringifyPretty (.obj (rowsObject rows))

/-- The textual form a primitive field takes in the projection (source
line 128): strings pass through verbatim, other scalars via
`JSON.stringify`. -/
def scalarText : JValue → String
  | .str s => s
  | v => stringifyCompact v

/-- The object branch of `parseContentToKeyValues` (source lines 123-131):
keep each field whose value is not compound, rendered as `scalarText`;
non-object values give an empty projection. -/
def keyValuesOfValue : JValue → List (String × String)
  | .obj fs =>
    fs.filterMap (fun p => if isCompound p.2 then none else some (p.1, scalarText p.2))
  | _ => []

/-- Source `parseContentToKeyValues` (lines 120-137): parse the content
string, project an object's primitive fields, and return the empty mapping
when parsing fails or the value is not an object. -/
def parseContentToKeyValues (content : String) : List (String × String) :=
  match jsonParse content with
  | some v => keyValuesOfValue v
  | none => []

/-- `parseContentToKeyValues` lifted to a possibly-`undefined` content
string: `JSON.parse(undefined)` throws, which the source catches into the
empty mapping. -/
def parseContentOpt : Option String → List (String × String)
  | some s => parseContentToKeyValues s
  | none => []

/-- JS truthiness of the `optimisticContent` state field (`null` and the
empty string are falsy). -/
def strTruthy : Option String → Bool
  | none => false
  | some s => !s.isEmpty

/-- The filter-and-render step of `getFreshContent` (lines 83-93): plain
objects keep only their non-compound fields; arrays and scalars are
pretty-printed whole. -/
def renderResolved : JValue → String
  | .obj fs => stringifyPretty (.obj (fs.filter (fun p => !isCompound p.2)))
  | v => stringifyPretty v

/-- The component's state before an event handler runs: the React state
fields (`isEditing`, `editedValues`, `optimisticContent`), the selected
node's path and text rows, the JSON store text, and the external file
store (contents and pending-changes flag). -/
structure ModalState where
  isEditing : Bool
  editedValues : List (String × String)
  optimisticContent : Option String
  json : String
  path : List JSeg
  rows : List NodeRow
  fileContents : String
  hasChanges : Bool

/-- Source `getFreshContent` (lines 67-97): truthy optimistic content is
returned immediately; otherwise the store JSON is parsed (falling back to
`normalizeNodeData` on parse failure or on a TypeError during the walk),
the path is walked, and the resolved node rendered. `none` models the
JS `undefined` return when the final lookup misses
(`JSON.stringify(undefined)` is `undefined`). -/
def getFreshContent (st : ModalState) : Option String :=
  if strTruthy st.optimisticContent then st.optimisticContent
  else
    match jsonParse st.json with
    | none => some (normalizeNodeData st.rows)
    | some doc =>
      if st.path.isEmpty then some (stringifyPretty doc)
      else
        match walk doc st.path with
        | .found v => some (renderResolved v)
        | .undef => none
        | .thrown => some (normalizeNodeData st.rows)

/-- Source `getFullNodeObject` (lines 102-117): parse the store JSON and
walk the path; parse failure or a TypeError is caught into the empty
object. A walk ending on `undefined` returns JS `undefined`, modelled as
the empty object because its only consumer is the object spread in
`handleSave`, where both spread to no fields. -/
def getFullNodeObject (st : ModalState) : JValue :=
  match jsonParse st.json with
  | none => .obj []
  | some doc =>
    if st.path.isEmpty then doc
    else
      match walk doc st.path with
      | .found v => v
      | .undef => .obj []
      | .thrown => .obj []

/-- The fields contributed by the spread `{ ...fullNodeObject }`: an
object's own fields; spreading scalars or null contributes none (spreading
a string's characters is outside the model — the merge contract only
concerns mapping-shaped nodes). -/
def spreadFields : JValue → List (String × JValue)
  | .obj fs => fs
  | _ => []

/-- The per-field reinterpretation of an edited text (lines 177-182):
`JSON.parse` it, and on failure keep it as a raw string. -/
def reinterpret (t : String) : JValue :=
  match jsonParse t with
  | some v => v
  | none => .str t

/-- The merge loop of `handleSave` (lines 175-183): starting from the
spread copy of the original node, assign each edited entry in order with
its reinterpreted value. -/
def mergeEdits (fs : List (String × JValue)) (eb : List (String × String)) :
    List (String × JValue) :=
  eb.foldl (fun acc p => setKey acc p.1 (reinterpret p.2)) fs

/-- JS property assignment `current[lastKey] = v` at the end of
`updateJsonAtPath`: insert-or-overwrite on objects (numeric segments
coerce to string keys), in-range set or null-padded extension on arrays; a
non-index string key on an array adds a property invisible to
`JSON.stringify` (array unchanged); assignment on null or a scalar throws
(strict-mode TypeError), modelled as `none`. -/
def assignAt : JValue → JSeg → JValue → Option JValue
  | .obj fs, .key k, nv => some (.obj (setKey fs k nv))
  | .obj fs, .idx i, nv => some (.obj (setKey fs (toString i) nv))
  | .arr xs, .idx i, nv =>
    if i < xs.length then some (.arr (xs.set i nv))
    else some (.arr (xs ++ List.replicate (i - xs.length) .null ++ [nv]))
  | .arr xs, .key _, _ => some (.arr xs)
  | _, _, _ => none

/-- Rebuild a parent value with the child at the given segment replaced —
the functional rendering of the source's in-place mutation of the parsed
tree (parsed JSON has no aliasing). Only invoked after `getIndex`
succeeded at this segment. -/
def writeBack : JValue → JSeg → JValue → JValue
  | .obj fs, .key k, c => .obj (setKey fs k c)
  | .obj fs, .idx i, c => .obj (setKey fs (toString i) c)
  | .arr xs, .idx i, c => .arr (xs.set i c)
  | v, _, _ => v

/-- The non-root body of `updateJsonAtPath` (lines 44-51): walk to the
parent of the final segment and assign there; `none` models the TypeError
thrown when a walk step lands on `undefined`/`null`/a scalar or the final
assignment target is not assignable. -/
def updateAtPath : JValue → List JSeg → JValue → Option JValue
  | _, [], _ => none
  | doc, [s], nv => assignAt doc s nv
  | doc, s :: rest, nv =>
    match getIndex doc s with
    | some child =>
      match updateAtPath child rest nv with
      | some child' => some (writeBack doc s child')
      | none => none
    | none => none

/-- Source `updateJsonAtPath` (lines 33-57): parse the document and the
new value (any JS exception in the body is caught and rethrown as
`Error("Invalid JSON format")`); an empty path replaces the whole
document, otherwise the target subtree is replaced along the path. -/
def updateJsonAtPath (jsonString : String) (path : List JSeg) (newValue : String) :
    Except String String :=
  match jsonParse jsonString, jsonParse newValue with
  | some parsedJson, some parsedNewValue =>
    if path.isEmpty then .ok (stringifyPretty parsedNewValue)
    else
      match updateAtPath parsedJson path parsedNewValue with
      | some doc => .ok (stringifyPretty doc)
      | none => .error "Invalid JSON format"
  | _, _ => .error "Invalid JSON format"

/-- The externally visible calls a handler makes, in program order: the
optimistic-overlay state update, the write handed to the external file
store, and the success/failure toast notifications. -/
inductive UIEvent where
  | setOptimistic : String → UIEvent
  | storeWrite : String → UIEvent
  | toastSuccess : UIEvent
  | toastError : String → UIEvent
deriving DecidableEq

/-- The merged node object computed by `handleSave` (lines 172-183). -/
def mergedOf (st : ModalState) : List (String × JValue) :=
  mergeEdits (spreadFields (getFullNodeObject st)) st.editedValues

/-- The optimistic content `handleSave` installs (lines 188-194): the
merged object filtered to its non-compound fields, pretty-printed. -/
def optimContentOf (st : ModalState) : String :=
  stringifyPretty (.obj ((mergedOf st).filter (fun p => !isCompound p.2)))

/-- Source `handleSave` (lines 169-206): merge the edits into the full
node object, install the optimistic content, then write through
`updateJsonAtPath`; on success push to the file store, leave edit mode and
toast success — on a thrown error only the already-scheduled optimistic
update survives and the error toast fires. The event list records the
externally visible calls in program order. -/
def handleSave (st : ModalState) : ModalState × List UIEvent :=
  let mergedJson := stringifyPretty (.obj (mergedOf st))
  let optim := optimContentOf st
  match updateJsonAtPath st.json st.path mergedJson with
  | .ok updatedJson =>
    ({ st with
        optimisticContent := some optim
        fileContents := updatedJson
        hasChanges := true
        isEditing := false },
     [.setOptimistic optim, .storeWrite updatedJson, .toastSuccess])
  | .error msg =>
    ({ st with optimisticContent := some optim },
     [.setOptimistic optim, .toastError msg])

/-- Source `handleCancel` (lines 157-160): leave edit mode and reset the
edited values to the projection of the current content; the optimistic
overlay is not touched. -/
def handleCancel (st : ModalState) : ModalState :=
  { st with
      isEditing := false
      editedValues := parseContentOpt (getFreshContent st) }

/-- Source `handleClose` (lines 208-212): leave edit mode and clear the
optimistic overlay; the edited values are not touched (they are
re-initialized by the open-effect when a session next opens). -/
def handleClose (st : ModalState) : ModalState :=
  { st with
      isEditing := false
      optimisticContent := none }

/-- A state about to save whose store JSON is not valid, so the write
step throws: used to exhibit the overlay behaviour on a failed save. -/
def exSaveFailSt : ModalState :=
  { isEditing := true
    editedValues := [("a", "1")]
    optimisticContent := none
    json := "oops"
    path := []
    rows := []
    fileContents := "orig"
    hasChanges := false }

/-- A second failing-save state (store JSON malformed differently),
used to witness the failure-preserves-session theorem. -/
def exSaveFailSt2 : ModalState :=
  { isEditing := true
    editedValues := [("b", "2")]
    optimisticContent := none
    json := "[1,"
    path := []
    rows := []
    fileContents := "keep"
    hasChanges := false }

/-- A state holding an optimistic value while cancelling, used to exhibit
that cancel does not clear the overlay. -/
def exCancelSt : ModalState :=
  { isEditing := true
    editedValues := [("a", "1")]
    optimisticContent := some "held"
    json := "\x7b\"a\":2\x7d"
    path := []
    rows := []
    fileContents := ""
    hasChanges := false }

/-- The spec's error-recovery scenario: document `\x7b"x":5\x7d`, path `[]`,
field `x` edited to the unparsable text `hello`. -/
def exC6St : ModalState :=
  { isEditing := true
    editedValues := [("x", "hello")]
    optimisticContent := none
    json := "\x7b\"x\":5\x7d"
    path := []
    rows := []
    fileContents := ""
    hasChanges := false }

/-- A state whose input document text is malformed, with a last-known
node snapshot available, used to witness the degraded read path. -/
def exBadDocSt : ModalState :=
  { isEditing := false
    editedValues := []
    optimisticContent := none
    json := "not json"
    path := [JSeg.key "a"]
    rows := [{ key := "b", value := JValue.num 1, rowType := "number" }]
    fileContents := ""
    hasChanges := false }

/-- A concrete mapping node with a string, a number and a compound field,
used to witness the projection and merge theorems. -/
def exFs : List (String × JValue) :=
  [("name", JValue.str "hi"), ("n", JValue.num 5), ("c", JValue.arr [JValue.num 1])]

/-- A concrete mapping node for the merge frame witness: one primitive
field and one compound field. -/
def exMergeFs : List (String × JValue) :=
  [("b", JValue.num 1), ("c", JValue.arr [JValue.num 1, JValue.num 2])]

theorem lookupFirst_setKey_self (fs : List (String × JValue)) (k : String) (v : JValue) :
    lookupFirst (setKey fs k v) k = some v := by
  induction fs with
  | nil => simp [setKey, lookupFirst]
  | cons p rest ih =>
    obtain ⟨k', v'⟩ := p
    by_cases h : k' = k
    · simp [setKey, h, lookupFirst]
    · simp [setKey, h, lookupFirst, ih]

theorem lookupFirst_setKey_ne (fs : List (String × JValue)) (k' k : String) (v : JValue)
    (h : k' ≠ k) : lookupFirst (setKey fs k' v) k = lookupFirst fs k := by
  induction fs with
  | nil => simp [setKey, lookupFirst, h]
  | cons p rest ih =>
    obtain ⟨a, b⟩ := p
    by_cases ha : a = k'
    · subst ha
      simp [setKey, lookupFirst, h]
    · have hkk' : ¬k = k' := fun he => h he.symm
      by_cases hk : a = k
      · simp [setKey, ha, lookupFirst, hk, hkk']
      · simp [setKey, ha, lookupFirst, hk, ih]

theorem setKey_absent (fs : List (String × JValue)) (k : String) (v : JValue)
    (h : lookupFirst fs k = none) : setKey fs k v = fs ++ [(k, v)] := by
  induction fs with
  | nil => rfl
  | cons p rest ih =>
    obtain ⟨a, b⟩ := p
    by_cases ha : a = k
    · simp [lookupFirst, ha] at h
    · simp [lookupFirst, ha] at h
      simp [setKey, ha, ih h]

theorem lookupFirst_of_mem_nodup (fs : List (String × JValue)) (k : String) (v : JValue)
    (hnd : (fs.map Prod.fst).Nodup) (hm : (k, v) ∈ fs) : lookupFirst fs k = some v := by
  induction fs with
  | nil => cases hm
  | cons p rest ih =>
    obtain ⟨a, b⟩ := p
    simp only [List.map_cons, List.nodup_cons] at hnd
    rcases List.mem_cons.mp hm with heq | hrest
    · cases heq
      simp [lookupFirst]
    · have hak : a ≠ k := by
        intro he
        exact hnd.1 (he ▸ (List.mem_map.mpr ⟨(k, v), hrest, rfl⟩))
      simp [lookupFirst, hak, ih hnd.2 hrest]

theorem mem_of_lookupFirst (fs : List (String × JValue)) (k : String) (v : JValue)
    (h : lookupFirst fs k = some v) : (k, v) ∈ fs := by
  induction fs with
  | nil => cases h
  | cons p rest ih =>
    obtain ⟨a, b⟩ := p
    by_cases ha : a = k
    · subst ha
      simp [lookupFirst] at h
      simp [h]
    · simp [lookupFirst, ha] at h
      exact List.mem_cons_of_mem _ (ih h)

theorem mergeEdits_not_mem (eb : List (String × String)) (fs : List (String × JValue))
    (k : String) (h : k ∉ eb.map Prod.fst) :
    lookupFirst (mergeEdits fs eb) k = lookupFirst fs k := by
  induction eb generalizing fs with
  | nil => rfl
  | cons p rest ih =>
    simp only [List.map_cons, List.mem_cons, not_or] at h
    have step : mergeEdits fs (p :: rest) = mergeEdits (setKey fs p.1 (reinterpret p.2)) rest := rfl
    rw [step, ih _ h.2, lookupFirst_setKey_ne _ _ _ _ (fun he => h.1 he.symm)]

theorem mergeEdits_mem_unparsable (eb : List (String × String)) (fs : List (String × JValue))
    (k t : String) (hnd : (eb.map Prod.fst).Nodup) (hm : (k, t) ∈ eb)
    (hbad : jsonParse t = none) :
    lookupFirst (mergeEdits fs eb) k = some (.str t) := by
  induction eb generalizing fs with
  | nil => cases hm
  | cons p rest ih =>
    simp only [List.map_cons, List.nodup_cons] at hnd
    have step : mergeEdits fs (p :: rest) = mergeEdits (setKey fs p.1 (reinterpret p.2)) rest := rfl
    rcases List.mem_cons.mp hm with heq | hrest
    · cases heq
      have hnotin : k ∉ rest.map Prod.fst := hnd.1
      rw [step, mergeEdits_not_mem _ _ _ hnotin]
      have : reinterpret t = .str t := by simp [reinterpret, hbad]
      rw [this, lookupFirst_setKey_self]
    · exact step ▸ ih _ hnd.2 hrest

theorem mem_keyValues_elim (fs : List (String × JValue)) (k s : String)
    (h : (k, s) ∈ keyValuesOfValue (.obj fs)) :
    ∃ u, (k, u) ∈ fs ∧ isCompound u = false ∧ s = scalarText u := by
  simp only [keyValuesOfValue, List.mem_filterMap] at h
  obtain ⟨⟨k₀, u⟩, hmem, heq⟩ := h
  by_cases hc : isCompound u
  · simp [hc] at heq
  · simp only [hc, if_neg] at heq
    simp at heq
    obtain ⟨hk, hs⟩ := heq
    subst hk
    exact ⟨u, hmem, by simpa using hc, hs.symm⟩

theorem keyValues_intro (fs : List (String × JValue)) (k : String) (u : JValue)
    (hm : (k, u) ∈ fs) (hc : isCompound u = false) :
    (k, scalarText u) ∈ keyValuesOfValue (.obj fs) := by
  simp only [keyValuesOfValue, List.mem_filterMap]
  exact ⟨(k, u), hm, by simp [hc]⟩

theorem compound_not_in_keyValues (fs : List (String × JValue)) (k : String) (v : JValue)
    (hnd : (fs.map Prod.fst).Nodup) (hk : lookupFirst fs k = some v)
    (hc : isCompound v = true) (s : String) :
    (k, s) ∉ keyValuesOfValue (.obj fs) := by
  intro hmem
  obtain ⟨u, humem, huc, _⟩ := mem_keyValues_elim fs k s hmem
  have := lookupFirst_of_mem_nodup fs k u hnd humem
  rw [hk] at this
  cases this
  rw [hc] at huc
  cases huc

theorem compound_key_not_in_projection_keys (fs : List (String × JValue)) (k : String)
    (v : JValue) (hnd : (fs.map Prod.fst).Nodup) (hk : lookupFirst fs k = some v)
    (hc : isCompound v = true) :
    k ∉ (keyValuesOfValue (.obj fs)).map Prod.fst := by
  intro hmem
  obtain ⟨⟨k₀, s⟩, hm, he⟩ := List.mem_map.mp hmem
  cases he
  exact compound_not_in_keyValues fs k₀ v hnd hk hc s hm

theorem keyValues_of_lifted (l : List (String × String)) :
    keyValuesOfValue (.obj (l.map (fun p => (p.1, JValue.str p.2)))) = l := by
  induction l with
  | nil => rfl
  | cons p rest ih =>
    obtain ⟨a, b⟩ := p
    simpa [keyValuesOfValue, isCompound, scalarText] using ih

theorem getIndex_writeBack (d : JValue) (s : JSeg) (c c' : JValue)
    (h : getIndex d s = some c) : getIndex (writeBack d s c') s = some c' := by
  cases d with
  | obj fs =>
    cases s with
    | key k => simp [getIndex, writeBack, lookupFirst_setKey_self]
    | idx i => simp [getIndex, writeBack, lookupFirst_setKey_self]
  | arr xs =>
    cases s with
    | key k => simp [getIndex] at h
    | idx i =>
      simp only [getIndex] at h ⊢
      simp only [writeBack]
      have hlt : i < xs.length := by
        by_contra hge
        rw [List.get?_eq_none.mpr (Nat.le_of_not_lt hge)] at h
        cases h
      rw [List.get?_eq_getElem? _ _, List.getElem?_set_self (by simpa using hlt)]
  | null => simp [getIndex] at h
  | bool b => simp [getIndex] at h
  | num n => simp [getIndex] at h
  | str t => simp [getIndex] at h

theorem updateAtPath_cons_ne (doc : JValue) (s : JSeg) (r : List JSeg) (nv : JValue)
    (h : r ≠ []) :
    updateAtPath doc (s :: r) nv =
      (match getIndex doc s with
       | some child =>
         (match updateAtPath child r nv with
          | some child' => some (writeBack doc s child')
          | none => none)
       | none => none) := by
  cases r with
  | nil => exact absurd rfl h
  | cons a as => rfl

theorem updateAtPath_resolve (p : List JSeg) (d parent : JValue) (s : JSeg)
    (nv w : JValue) (hres : resolvePath d p = some parent)
    (hass : assignAt parent s nv = some w) :
    ∃ d', updateAtPath d (p ++ [s]) nv = some d' ∧ resolvePath d' p = some w := by
  induction p generalizing d with
  | nil =>
    have hd : d = parent := by simpa [resolvePath] using hres
    subst hd
    exact ⟨w, by simpa [updateAtPath] using hass, by simp [resolvePath]⟩
  | cons s0 p' ih =>
    rcases hgi : getIndex d s0 with _ | c
    · simp [resolvePath, hgi] at hres
    · have hres' : resolvePath c p' = some parent := by
        simpa [resolvePath, hgi] using hres
      obtain ⟨c', hupd, hresc⟩ := ih c hres'
      refine ⟨writeBack d s0 c', ?_, ?_⟩
      · rw [List.cons_append, updateAtPath_cons_ne _ _ _ _ (by simp), hgi]
        simp [hupd]
      · simp [resolvePath, getIndex_writeBack d s0 c c' hgi, hresc]

/-- C3: for every node with distinct field names, every key of the
projection exists in the node with a non-compound value rendered by
`scalarText`; the projection never contains a key whose node value is an
array or object; strings pass through verbatim and numbers, booleans and
null render as their literal text. -/
theorem projection_fields_faithful (fs : List (String × JValue))
    (hnd : (fs.map Prod.fst).Nodup) :
    (∀ k s, (k, s) ∈ keyValuesOfValue (.obj fs) →
      ∃ u, lookupFirst fs k = some u ∧ isCompound u = false ∧ s = scalarText u) ∧
    (∀ k v, lookupFirst fs k = some v → isCompound v = true →
      ∀ s, (k, s) ∉ keyValuesOfValue (.obj fs)) ∧
    (∀ t, scalarText (.str t) = t) ∧
    scalarText .null = "null" ∧
    scalarText (.bool true) = "true" ∧
    scalarText (.bool false) = "false" ∧
    (∀ n : Int, scalarText (.num n) = toString n) := by
  refine ⟨?_, ?_, fun t => rfl, rfl, rfl, rfl, fun n => rfl⟩
  · intro k s h
    obtain ⟨u, hm, hc, hs⟩ := mem_keyValues_elim fs k s h
    exact ⟨u, lookupFirst_of_mem_nodup fs k u hnd hm, hc, hs⟩
  · intro k v hk hc s
    exact compound_not_in_keyValues fs k v hnd hk hc s

/-- Witness for C3: the projection faithfulness theorem instantiated at a
concrete node with a string, a number and an array field. -/
theorem projection_fields_faithful_witness :
    ((exFs.map Prod.fst).Nodup) ∧
    ((∀ k s, (k, s) ∈ keyValuesOfValue (.obj exFs) →
        ∃ u, lookupFirst exFs k = some u ∧ isCompound u = false ∧ s = scalarText u) ∧
      (∀ k v, lookupFirst exFs k = some v → isCompound v = true →
        ∀ s, (k, s) ∉ keyValuesOfValue (.obj exFs)) ∧
      (∀ t, scalarText (.str t) = t) ∧
      scalarText .null = "null" ∧
      scalarText (.bool true) = "true" ∧
      scalarText (.bool false) = "false" ∧
      (∀ n : Int, scalarText (.num n) = toString n)) :=
  ⟨by decide, projection_fields_faithful exFs (by decide)⟩

/-- C9: the projection is idempotent — projecting the projection's output,
treated itself as a node whose field values are the projected strings,
yields the same mapping. -/
theorem projection_idempotent (v : JValue) :
    keyValuesOfValue
        (.obj ((keyValuesOfValue v).map (fun p => (p.1, JValue.str p.2)))) =
      keyValuesOfValue v :=
  keyValues_of_lifted (keyValuesOfValue v)

/-- C4: for a mapping node with distinct field names and an edit buffer
whose keys all come from the node's projection, every compound-valued
field of the node, and every field not present in the edit buffer, appears
unchanged in the merged object. -/
theorem merge_preserves_compound_and_unedited
    (fs : List (String × JValue)) (eb : List (String × String))
    (hnd : (fs.map Prod.fst).Nodup)
    (hsub : ∀ k, k ∈ eb.map Prod.fst → k ∈ (keyValuesOfValue (.obj fs)).map Prod.fst)
    (k : String) (v : JValue) (hk : lookupFirst fs k = some v)
    (hcase : isCompound v = true ∨ k ∉ eb.map Prod.fst) :
    lookupFirst (mergeEdits fs eb) k = some v := by
  have hnotin : k ∉ eb.map Prod.fst := by
    rcases hcase with hc | hni
    · intro hin
      exact compound_key_not_in_projection_keys fs k v hnd hk hc (hsub k hin)
    · exact hni
  rw [mergeEdits_not_mem _ _ _ hnotin]
  exact hk

/-- Witness for C4: merging the edit `b := "5"` into the node
`\x7b b: 1, c: [1, 2] \x7d` leaves the compound field `c` unchanged. -/
theorem merge_preserves_compound_and_unedited_witness :
    ((exMergeFs.map Prod.fst).Nodup) ∧
    (∀ k, k ∈ ([("b", "5")] : List (String × String)).map Prod.fst →
      k ∈ (keyValuesOfValue (.obj exMergeFs)).map Prod.fst) ∧
    lookupFirst exMergeFs "c" = some (JValue.arr [JValue.num 1, JValue.num 2]) ∧
    lookupFirst (mergeEdits exMergeFs [("b", "5")]) "c" =
      some (JValue.arr [JValue.num 1, JValue.num 2]) :=
  ⟨by decide, by decide, rfl,
    merge_preserves_compound_and_unedited exMergeFs [("b", "5")] (by decide) (by decide)
      "c" (JValue.arr [JValue.num 1, JValue.num 2]) rfl (Or.inl rfl)⟩

/-- C8: for every valid document and value, a write at the empty path
returns exactly the new value as the whole new document, bypassing path
walking entirely. -/
theorem root_write_returns_value (D V : String) (d v : JValue)
    (hD : jsonParse D = some d) (hV : jsonParse V = some v) :
    updateJsonAtPath D [] V = .ok (stringifyPretty v) := by
  unfold updateJsonAtPath
  rw [hD, hV]
  rfl

/-- Witness for C8: root replacement of the document `\x7b"a":1\x7d` by the
value `true`. -/
theorem root_write_returns_value_witness :
    jsonParse "\x7b\"a\":1\x7d" = some (.obj [("a", JValue.num 1)]) ∧
    jsonParse "true" = some (.bool true) ∧
    updateJsonAtPath "\x7b\"a\":1\x7d" [] "true" = .ok (stringifyPretty (.bool true)) :=
  ⟨rfl, rfl, root_write_returns_value _ _ _ _ rfl rfl⟩

/-- C10: for every valid document, non-empty path whose prefix resolves to
a mapping in which the final key is absent, and valid new value, the write
succeeds and the key is newly inserted (appended) in the parent mapping
with the new value. -/
theorem write_inserts_absent_key (D V : String) (p : List JSeg) (k : String)
    (d v : JValue) (fs : List (String × JValue))
    (hD : jsonParse D = some d) (hV : jsonParse V = some v)
    (hres : resolvePath d p = some (.obj fs)) (habs : lookupFirst fs k = none) :
    ∃ d', updateAtPath d (p ++ [JSeg.key k]) v = some d' ∧
      updateJsonAtPath D (p ++ [JSeg.key k]) V = .ok (stringifyPretty d') ∧
      resolvePath d' p = some (.obj (fs ++ [(k, v)])) := by
  have hass : assignAt (.obj fs) (.key k) v = some (.obj (fs ++ [(k, v)])) := by
    simp [assignAt, setKey_absent fs k v habs]
  obtain ⟨d', h1, h2⟩ := updateAtPath_resolve p d (.obj fs) (.key k) v _ hres hass
  refine ⟨d', h1, ?_, h2⟩
  have hne : (p ++ [JSeg.key k]).isEmpty = false := by
    cases p <;> rfl
  unfold updateJsonAtPath
  rw [hD, hV]
  simp [hne, h1]

/-- Witness for C10: inserting the absent key `c` under path `["a"]` of
the document `\x7b"a":\x7b"b":1\x7d\x7d`. -/
theorem write_inserts_absent_key_witness :
    jsonParse "\x7b\"a\":\x7b\"b\":1\x7d\x7d" =
      some (.obj [("a", JValue.obj [("b", JValue.num 1)])]) ∧
    jsonParse "2" = some (JValue.num 2) ∧
    resolvePath (.obj [("a", JValue.obj [("b", JValue.num 1)])]) [JSeg.key "a"] =
      some (.obj [("b", JValue.num 1)]) ∧
    lookupFirst [("b", JValue.num 1)] "c" = none ∧
    (∃ d', updateAtPath (.obj [("a", JValue.obj [("b", JValue.num 1)])])
        ([JSeg.key "a"] ++ [JSeg.key "c"]) (JValue.num 2) = some d' ∧
      updateJsonAtPath "\x7b\"a\":\x7b\"b\":1\x7d\x7d" ([JSeg.key "a"] ++ [JSeg.key "c"]) "2" =
        .ok (stringifyPretty d') ∧
      resolvePath d' [JSeg.key "a"] =
        some (.obj ([("b", JValue.num 1)] ++ [("c", JValue.num 2)]))) :=
  ⟨rfl, rfl, rfl, rfl,
    write_inserts_absent_key _ _ [JSeg.key "a"] "c" _ _ _ rfl rfl rfl rfl⟩

/-- C7: for every state whose overlay is Empty and whose input document
text is not valid, the read path returns (without throwing — the model is
total) the degraded projection derived from the last-known node snapshot,
which is the empty-object placeholder when no snapshot rows exist. -/
theorem invalid_document_read_degrades (st : ModalState)
    (hov : strTruthy st.optimisticContent = false)
    (hbad : jsonParse st.json = none) :
    getFreshContent st = some (normalizeNodeData st.rows) ∧
    (st.rows = [] → getFreshContent st = some "\x7b\x7d") := by
  have h1 : getFreshContent st = some (normalizeNodeData st.rows) := by
    simp [getFreshContent, hov, hbad]
  exact ⟨h1, fun hr => by rw [h1, hr]; rfl⟩

/-- Witness for C7: the malformed document text `not json` with a
one-row snapshot degrades to the snapshot rendering. -/
theorem invalid_document_read_degrades_witness :
    strTruthy exBadDocSt.optimisticContent = false ∧
    jsonParse exBadDocSt.json = none ∧
    (getFreshContent exBadDocSt = some (normalizeNodeData exBadDocSt.rows) ∧
      (exBadDocSt.rows = [] → getFreshContent exBadDocSt = some "\x7b\x7d")) :=
  ⟨rfl, rfl, invalid_document_read_degrades exBadDocSt rfl rfl⟩

/-- C5: for every save whose write step fails while editing, the failure
is surfaced as an error toast, the edit buffer is unchanged, the file
store is untouched, and the session remains in editing mode. -/
theorem save_failure_preserves_session (st : ModalState) (msg : String)
    (hed : st.isEditing = true)
    (hfail : updateJsonAtPath st.json st.path (stringifyPretty (.obj (mergedOf st))) =
      .error msg) :
    (handleSave st).1.isEditing = true ∧
    (handleSave st).1.editedValues = st.editedValues ∧
    (handleSave st).1.fileContents = st.fileContents ∧
    UIEvent.toastError msg ∈ (handleSave st).2 := by
  simp [handleSave, hfail, hed]

/-- Witness for C5: a save over the malformed store text `[1,` fails and
leaves the editing session intact. -/
theorem save_failure_preserves_session_witness :
    exSaveFailSt2.isEditing = true ∧
    updateJsonAtPath exSaveFailSt2.json exSaveFailSt2.path
        (stringifyPretty (.obj (mergedOf exSaveFailSt2))) = .error "Invalid JSON format" ∧
    ((handleSave exSaveFailSt2).1.isEditing = true ∧
      (handleSave exSaveFailSt2).1.editedValues = exSaveFailSt2.editedValues ∧
      (handleSave exSaveFailSt2).1.fileContents = exSaveFailSt2.fileContents ∧
      UIEvent.toastError "Invalid JSON format" ∈ (handleSave exSaveFailSt2).2) :=
  ⟨rfl, rfl, save_failure_preserves_session exSaveFailSt2 _ rfl rfl⟩

/-- C6: an edited field whose text does not parse is merged as a raw
string; a save's success is decided by the write step alone, never by a
field's parsability; and in the concrete scenario — document
`\x7b"x":5\x7d`, path `[]`, `x` edited to `hello` — the save succeeds and
the new document is `\x7b"x":"hello"\x7d`. -/
theorem unparsable_edit_raw_string_save_succeeds :
    (∀ (fs : List (String × JValue)) (eb : List (String × String)) (k t : String),
        (eb.map Prod.fst).Nodup → (k, t) ∈ eb → jsonParse t = none →
        lookupFirst (mergeEdits fs eb) k = some (.str t)) ∧
    (∀ (st : ModalState) (u : String),
        updateJsonAtPath st.json st.path (stringifyPretty (.obj (mergedOf st))) = .ok u →
        (handleSave st).2 =
          [.setOptimistic (optimContentOf st), .storeWrite u, .toastSuccess]) ∧
    (handleSave exC6St).1.fileContents = stringifyPretty (.obj [("x", JValue.str "hello")]) ∧
    (handleSave exC6St).2 =
      [.setOptimistic (stringifyPretty (.obj [("x", JValue.str "hello")])),
        .storeWrite (stringifyPretty (.obj [("x", JValue.str "hello")])),
        .toastSuccess] := by
  refine ⟨fun fs eb k t h1 h2 h3 => mergeEdits_mem_unparsable eb fs k t h1 h2 h3,
    ?_, rfl, rfl⟩
  intro st u hok
  simp [handleSave, hok]

/-- Witness for C6: the unparsable text `hello` for key `x` is merged as
the raw string value. -/
theorem unparsable_edit_raw_string_save_succeeds_witness :
    (([("x", "hello")] : List (String × String)).map Prod.fst).Nodup ∧
    ("x", "hello") ∈ ([("x", "hello")] : List (String × String)) ∧
    jsonParse "hello" = none ∧
    lookupFirst (mergeEdits [("x", JValue.num 5)] [("x", "hello")]) "x" =
      some (.str "hello") :=
  ⟨by decide, by decide, rfl,
    unparsable_edit_raw_string_save_succeeds.1 [("x", JValue.num 5)] [("x", "hello")]
      "x" "hello" (by decide) (by decide) rfl⟩

/-- Counterexample to C1 as stated: at `exSaveFailSt` the write step fails
(only an optimistic update and an error toast happen — no store write),
yet the overlay is left Holding exactly the value computed from that
failed save. -/
theorem save_failure_overlay_holding_cex :
    exSaveFailSt.optimisticContent = none ∧
    (handleSave exSaveFailSt).2 =
      [.setOptimistic (optimContentOf exSaveFailSt), .toastError "Invalid JSON format"] ∧
    (∀ u, UIEvent.storeWrite u ∉ (handleSave exSaveFailSt).2) ∧
    (handleSave exSaveFailSt).1.optimisticContent = some (optimContentOf exSaveFailSt) := by
  refine ⟨rfl, rfl, ?_, rfl⟩
  intro u
  rw [show (handleSave exSaveFailSt).2 =
    [.setOptimistic (optimContentOf exSaveFailSt), .toastError "Invalid JSON format"]
    from rfl]
  simp

/-- C1 (amended): on every save attempt the overlay is set to Holding the
filtered merged projection as the first externally visible call, before
any store write; on success the write and success toast follow, and on a
failed write the overlay is still left Holding that value, with only an
error toast following. -/
theorem save_sets_overlay_before_write (st : ModalState) :
    (handleSave st).1.optimisticContent = some (optimContentOf st) ∧
    (handleSave st).2.head? = some (.setOptimistic (optimContentOf st)) ∧
    ((∃ u, updateJsonAtPath st.json st.path (stringifyPretty (.obj (mergedOf st))) = .ok u ∧
        (handleSave st).2 =
          [.setOptimistic (optimContentOf st), .storeWrite u, .toastSuccess]) ∨
      (∃ m, updateJsonAtPath st.json st.path (stringifyPretty (.obj (mergedOf st))) =
          .error m ∧
        (handleSave st).2 = [.setOptimistic (optimContentOf st), .toastError m])) := by
  cases h : updateJsonAtPath st.json st.path (stringifyPretty (.obj (mergedOf st))) with
  | ok u =>
    refine ⟨?_, ?_, Or.inl ⟨u, rfl, ?_⟩⟩ <;> simp [handleSave, h]
  | error m =>
    refine ⟨?_, ?_, Or.inr ⟨m, rfl, ?_⟩⟩ <;> simp [handleSave, h]

/-- Counterexample to C2 as stated: cancelling at `exCancelSt` leaves the
overlay Holding its previous value instead of clearing it to Empty. -/
theorem cancel_keeps_overlay_cex :
    exCancelSt.optimisticContent = some "held" ∧
    (handleCancel exCancelSt).optimisticContent = some "held" ∧
    (handleCancel exCancelSt).optimisticContent ≠ none := by
  refine ⟨rfl, rfl, ?_⟩
  rw [show (handleCancel exCancelSt).optimisticContent = some "held" from rfl]
  exact Option.some_ne_none _

/-- C2 (amended): closing clears the overlay to Empty and leaves the edit
buffer as-is (it is re-initialized when a session next opens), while
cancelling discards the edit buffer by resetting it to the projection of
the current content but leaves the overlay unchanged; both leave edit
mode. -/
theorem close_clears_overlay_cancel_resets_buffer (st : ModalState) :
    (handleClose st).optimisticContent = none ∧
    (handleClose st).isEditing = false ∧
    (handleClose st).editedValues = st.editedValues ∧
    (handleCancel st).isEditing = false ∧
    (handleCancel st).editedValues = parseContentOpt (getFreshContent st) ∧
    (handleCancel st).optimisticContent = st.optimisticContent :=
  ⟨rfl, rfl, rfl, rfl, rfl, rfl⟩
